import Mathlib

/-!
Verification of the redbeat scheduler (src/redbeat/schedulers.py) against its
natural-language specification.

Shallow embedding conventions:
- Datetimes are modelled as integer Unix seconds (Int, negative before 1970);
  datetime.min is the most negative representable instant, 0001-01-01.
- to_timestamp (time.mktime of the timetuple) is the numeric reading of such
  an instant, hence the identity on the Int model.
- Recurrence rules (celery schedule objects) are opaque values carrying the
  two capabilities the code uses: remaining_estimate and is_due.
- The redis store is a record of the pieces of state the module touches: the
  per-entry hash fields definition and meta (association lists keyed by the
  redis key), the single due-set sorted set (REDBEAT_SCHEDULE_KEY, an
  association list member to score), the statics set (REDBEAT_STATICS_KEY,
  a list of names read as a set), and the pttl of the lock key.
- Serialization (RedBeatJSONEncoder / RedBeatJSONDecoder) is modelled as the
  identity: the store holds structured values, per the round-trip fidelity
  the spec grants the wire encoding.
- Exceptions are modelled explicitly: load_definition returns Option
  (none = KeyError) and next returns a result record whose err field holds
  the NameError it raises.
-/

/-- Association-list lookup: first binding for the key, as redis hget. -/
def lookupAssoc {α : Type} : List (String × α) → String → Option α
  | [], _ => none
  | (k, v) :: t, k2 => if k = k2 then some v else lookupAssoc t k2

/-- Association-list upsert, as redis hset / zadd: replace the first binding
or append a new one. -/
def setAssoc {α : Type} : List (String × α) → String → α → List (String × α)
  | [], k2, v2 => [(k2, v2)]
  | (k, v) :: t, k2, v2 =>
    if k = k2 then (k2, v2) :: t else (k, v) :: setAssoc t k2 v2

/-- Association-list removal of every binding for the key, as redis delete
of a whole key or zrem of a member. -/
def removeAssoc {α : Type} : List (String × α) → String → List (String × α)
  | [], _ => []
  | (k, v) :: t, k2 => if k = k2 then removeAssoc t k2 else (k, v) :: removeAssoc t k2

/-- Set-style add of several members, as redis sadd: members already present
are kept once, new members are appended. -/
def saddList (s : List String) (ms : List String) : List String :=
  s ++ ms.filter (fun m => m ∉ s)

/-- A recurrence rule: per the spec an opaque serializable value exposing
remaining_estimate(last_run_at) -> duration; the base celery
ScheduleEntry.is_due additionally calls schedule.is_due(last_run_at), carried
here as a second capability returning (is_due, next_check_delay). -/
structure Schedule where
  remaining_estimate : Int → Int
  is_due : Int → Bool × Rat

/-- The definition hash field written by save: the seven rarely-changing
fields. args, kwargs and options are opaque payloads, modelled as strings. -/
structure Definition where
  name : String
  task : String
  args : String
  kwargs : String
  options : String
  schedule : Schedule
  enabled : Bool

/-- The meta hash field: last_run_at always, total_run_count only when the
writer included it (next writes both, reschedule writes only last_run_at). -/
structure Meta where
  last_run_at : Int
  total_run_count : Option Nat

/-- The slice of redis state the module touches. defs and metas are the
definition and meta hash fields keyed by redis key; zset is the single
due-set sorted set (member to score); statics is the static-name set;
lock_pttl is the remaining ttl set on the lock key, in milliseconds. -/
structure Store where
  defs : List (String × Definition)
  metas : List (String × Meta)
  zset : List (String × Int)
  statics : List String
  lock_pttl : Option Int

/-- Store with nothing persisted. -/
def Store.empty : Store := ⟨[], [], [], [], none⟩

/-- An in-memory RedBeatSchedulerEntry: the definition fields plus the run
history the celery ScheduleEntry base class carries. -/
structure RedBeatSchedulerEntry where
  name : String
  task : String
  args : String
  kwargs : String
  options : String
  schedule : Schedule
  enabled : Bool
  last_run_at : Int
  total_run_count : Nat

/-- REDBEAT_KEY_PREFIX default. -/
def REDBEAT_KEY_NS : String := "redbeat:"

/-- datetime.min (0001-01-01T00:00:00) as Unix seconds. -/
def datetime_min : Int := -62135596800

/-- to_timestamp(dt) = time.mktime(dt.timetuple()): the numeric reading of an
instant, the identity on the Int-seconds model. -/
def to_timestamp (dt : Int) : Int := dt

/-- Entry.key: REDBEAT_KEY_PREFIX + name. -/
def RedBeatSchedulerEntry.key (e : RedBeatSchedulerEntry) : String :=
  REDBEAT_KEY_NS ++ e.name

/-- Entry.due_at: last_run_at + schedule.remaining_estimate(last_run_at). -/
def RedBeatSchedulerEntry.due_at (e : RedBeatSchedulerEntry) : Int :=
  e.last_run_at + e.schedule.remaining_estimate e.last_run_at

/-- Entry.score: to_timestamp(due_at). -/
def RedBeatSchedulerEntry.score (e : RedBeatSchedulerEntry) : Int :=
  to_timestamp e.due_at

/-- The definition dict save serializes: name, task, args, kwargs, options,
schedule, enabled. -/
def RedBeatSchedulerEntry.definition (e : RedBeatSchedulerEntry) : Definition :=
  ⟨e.name, e.task, e.args, e.kwargs, e.options, e.schedule, e.enabled⟩

/-- Entry.save(): hset(key, definition, ...) then
zadd(REDBEAT_SCHEDULE_KEY, score, key). The meta field is not written. -/
def RedBeatSchedulerEntry.save (e : RedBeatSchedulerEntry) (s : Store) : Store :=
  let s1 := { s with defs := setAssoc s.defs e.key e.definition }
  { s1 with zset := setAssoc s1.zset e.key e.score }

/-- Entry.delete(): zrem(REDBEAT_SCHEDULE_KEY, key) then delete(key), which
drops both hash fields stored under the key. -/
def RedBeatSchedulerEntry.delete (e : RedBeatSchedulerEntry) (s : Store) : Store :=
  { s with zset := removeAssoc s.zset e.key,
           defs := removeAssoc s.defs e.key,
           metas := removeAssoc s.metas e.key }

/-- load_meta(key): hget(key, meta); absent or empty decodes to
last_run_at = datetime.min and no total_run_count; otherwise the decoded
stored meta. Never fails. -/
def RedBeatSchedulerEntry.load_meta (s : Store) (key : String) : Meta :=
  match lookupAssoc s.metas key with
  | none => ⟨datetime_min, none⟩
  | some m => m

/-- load_definition(key): hget(key, definition); absent or empty raises
KeyError(key), modelled as none. -/
def RedBeatSchedulerEntry.load_definition (s : Store) (key : String) : Option Definition :=
  lookupAssoc s.defs key

/-- from_key(key): load_definition, load_meta, definition.update(meta), then
the entry constructor; a missing total_run_count defaults to 0 (celery:
total_run_count or 0) and last_run_at is taken from meta. Propagates the
KeyError of load_definition as none. -/
def RedBeatSchedulerEntry.from_key (s : Store) (key : String) : Option RedBeatSchedulerEntry :=
  (RedBeatSchedulerEntry.load_definition s key).map fun d =>
    let m := RedBeatSchedulerEntry.load_meta s key
    { name := d.name, task := d.task, args := d.args, kwargs := d.kwargs,
      options := d.options, schedule := d.schedule, enabled := d.enabled,
      last_run_at := m.last_run_at,
      total_run_count := m.total_run_count.getD 0 }

/-- Result of Entry.next(): the mutated in-memory entry, the store after the
writes that completed, and the exception the call raised, when any (the
return-self line is unreachable when err is some). -/
structure NextResult where
  entry : RedBeatSchedulerEntry
  store : Store
  err : Option String

/-- Entry.next(last_run_at=None): sets last_run_at (defaulting to now),
increments total_run_count, hsets the meta field with both, then evaluates
zadd(REDBEAT_SCHEDULE_KEY, ...) where REDBEAT_SCHEDULE_KEY is a bare
module-level name that the module never defines (every other call site
reads self.app.conf.REDBEAT_SCHEDULE_KEY), so the call raises NameError
after the meta write and before any due-set update. -/
def RedBeatSchedulerEntry.next (e : RedBeatSchedulerEntry) (now : Int)
    (last_run_at : Option Int) (s : Store) : NextResult :=
  let lra := last_run_at.getD now
  let e1 := { e with last_run_at := lra, total_run_count := e.total_run_count + 1 }
  let s1 := { s with metas := setAssoc s.metas e1.key ⟨e1.last_run_at, some e1.total_run_count⟩ }
  { entry := e1, store := s1,
    err := some "NameError: global name REDBEAT_SCHEDULE_KEY is not defined" }

/-- Entry.reschedule(last_run_at=None): sets last_run_at (defaulting to now),
hsets the meta field with only last_run_at, then
zadd(REDBEAT_SCHEDULE_KEY from conf, score, key). -/
def RedBeatSchedulerEntry.reschedule (e : RedBeatSchedulerEntry) (now : Int)
    (last_run_at : Option Int) (s : Store) : RedBeatSchedulerEntry × Store :=
  let lra := last_run_at.getD now
  let e1 := { e with last_run_at := lra }
  let s1 := { s with metas := setAssoc s.metas e1.key ⟨e1.last_run_at, none⟩ }
  (e1, { s1 with zset := setAssoc s1.zset e1.key e1.score })

/-- Entry.is_due(): disabled entries report (False, 5.0); enabled entries
fall through to the celery base class, schedule.is_due(last_run_at). -/
def RedBeatSchedulerEntry.is_due (e : RedBeatSchedulerEntry) : Bool × Rat :=
  if e.enabled then e.schedule.is_due e.last_run_at else (false, 5)

/-- zrangebyscore(set, lo, hi): members whose score lies in the inclusive
range, ascending by score (order is not used by any claim; the stored order
of equal-result filters is kept). -/
def zrangebyscore (zs : List (String × Int)) (lo hi : Int) : List String :=
  (zs.filter (fun p => lo ≤ p.2 ∧ p.2 ≤ hi)).map Prod.fst

/-- RedBeatScheduler instance state the claims touch: whether the distributed
lock is held, and the configured lock timeout in seconds. -/
structure RedBeatScheduler where
  lock : Bool
  lock_timeout : Int

/-- The due-candidate query of one tick: max_due_at = to_timestamp(now +
max_interval) and zrangebyscore(REDBEAT_SCHEDULE_KEY, 0, max_due_at). -/
def due_tasks (s : Store) (now max_interval : Int) : List String :=
  zrangebyscore s.zset 0 (to_timestamp (now + max_interval))

/-- The loop body of the RedBeatScheduler.schedule property: for each due
key, from_key; a KeyError logs and zrems the dangling key and continues;
otherwise d[entry.name] = entry. -/
def collectDue (s : Store) (keys : List String)
    (d : List (String × RedBeatSchedulerEntry)) :
    Store × List (String × RedBeatSchedulerEntry) :=
  match keys with
  | [] => (s, d)
  | k :: rest =>
    match RedBeatSchedulerEntry.from_key s k with
    | none => collectDue { s with zset := removeAssoc s.zset k } rest d
    | some e => collectDue s rest (setAssoc d e.name e)

/-- RedBeatScheduler.schedule: query the due candidates and run the
collection loop with an empty dict; returns the possibly self-repaired store
and the candidate dict keyed by entry name. -/
def RedBeatScheduler.schedule (s : Store) (now max_interval : Int) :
    Store × List (String × RedBeatSchedulerEntry) :=
  collectDue s (due_tasks s now max_interval) []

/-- Names of the statics set that are absent from the current configuration:
removed = previous - current, recomputed by setup_schedule on every run. -/
def removedNames (s : Store) (conf : List RedBeatSchedulerEntry) : List String :=
  s.statics.filter (fun n => n ∉ conf.map RedBeatSchedulerEntry.name)

/-- RedBeatSchedulerEntry(name).delete() as issued by setup_schedule for a
removed static name: the throwaway entry carries only the name, and delete
touches the store through the key alone. -/
def deleteByName (n : String) (s : Store) : Store :=
  { s with zset := removeAssoc s.zset (REDBEAT_KEY_NS ++ n),
           defs := removeAssoc s.defs (REDBEAT_KEY_NS ++ n),
           metas := removeAssoc s.metas (REDBEAT_KEY_NS ++ n) }

/-- RedBeatScheduler.setup_schedule: delete every removed static entry;
install_default_entries (a no-op under a configuration with no result
expiry, as modelled); on an empty static configuration return before
touching the statics set; otherwise update_from_dict saves every static
entry (construction failures are logged and skipped; modelled with every
entry constructing) and sadd records the current names. -/
def RedBeatScheduler.setup_schedule (s : Store)
    (conf : List RedBeatSchedulerEntry) : Store :=
  let s1 := (removedNames s conf).foldl (fun st n => deleteByName n st) s
  if conf.isEmpty then s1
  else
    let s2 := conf.foldl (fun st e => e.save st) s1
    { s2 with statics := saddList s2.statics (conf.map RedBeatSchedulerEntry.name) }

/-- The lock phase of RedBeatScheduler.tick: when the lock is held, pexpire
the lock key to int(lock_timeout * 1000) milliseconds; otherwise touch
nothing. -/
def RedBeatScheduler.tick_lock_phase (sch : RedBeatScheduler) (s : Store) : Store :=
  if sch.lock then { s with lock_pttl := some (sch.lock_timeout * 1000) } else s

/-- RedBeatScheduler.tick: run the lock phase, then the celery base
Scheduler.tick (external code, taken as an opaque processing function from
store to store and suggested sleep interval) on the resulting store. -/
def RedBeatScheduler.tick (sch : RedBeatScheduler)
    (base : Store → Store × Rat) (s : Store) : Store × Rat :=
  base (sch.tick_lock_phase s)

/-! Basic lemmas about the store primitives. -/

theorem lookupAssoc_setAssoc {α : Type} (l : List (String × α)) (k k2 : String) (v : α) :
    lookupAssoc (setAssoc l k v) k2 = if k = k2 then some v else lookupAssoc l k2 := by
  induction l with
  | nil => by_cases h : k = k2 <;> simp [setAssoc, lookupAssoc, h]
  | cons p t ih =>
    obtain ⟨pk, pv⟩ := p
    by_cases h : pk = k
    · subst h
      by_cases h2 : pk = k2 <;> simp [setAssoc, lookupAssoc, h2]
    · by_cases h2 : pk = k2
      · subst h2
        simp [setAssoc, lookupAssoc, h, show ¬k = pk from fun hk => h hk.symm]
      · simp [setAssoc, lookupAssoc, h, h2, ih]

theorem lookupAssoc_removeAssoc {α : Type} (l : List (String × α)) (k k2 : String) :
    lookupAssoc (removeAssoc l k) k2 = if k = k2 then none else lookupAssoc l k2 := by
  induction l with
  | nil => by_cases h : k = k2 <;> simp [removeAssoc, lookupAssoc, h]
  | cons p t ih =>
    obtain ⟨pk, pv⟩ := p
    by_cases h : pk = k
    · subst h
      by_cases h2 : pk = k2
      · subst h2
        simp [removeAssoc, lookupAssoc, ih]
      · simp [removeAssoc, lookupAssoc, h2, ih]
    · by_cases h2 : pk = k2
      · subst h2
        simp [removeAssoc, lookupAssoc, h, show ¬k = pk from fun hk => h hk.symm]
      · simp [removeAssoc, lookupAssoc, h, h2, ih]

theorem mem_saddList (s ms : List String) (n : String) :
    n ∈ saddList s ms ↔ n ∈ s ∨ n ∈ ms := by
  simp only [saddList, List.mem_append, List.mem_filter, decide_eq_true_eq]
  constructor
  · rintro (h | ⟨h, _⟩)
    · exact Or.inl h
    · exact Or.inr h
  · rintro (h | h)
    · exact Or.inl h
    · by_cases hs : n ∈ s
      · exact Or.inl hs
      · exact Or.inr ⟨h, by simpa using hs⟩

theorem string_append_cancel {p a b : String} (h : p ++ a = p ++ b) : a = b := by
  cases p with
  | mk pd =>
    cases a with
    | mk ad =>
      cases b with
      | mk bd =>
        have hd : pd ++ ad = pd ++ bd := congrArg String.data h
        have : ad = bd := List.append_cancel_left hd
        simp [this]

/-! Concrete fixtures used by counterexamples and witnesses. -/

/-- A fixed-interval rule firing every 60 seconds (remaining_estimate and
is_due are opaque capabilities; only remaining_estimate matters here). -/
def schedEvery60 : Schedule := ⟨fun _ => 60, fun _ => (true, 1)⟩

/-- Concrete entry used by the next() staleness evaluation. -/
def entryX : RedBeatSchedulerEntry :=
  ⟨"x", "t", "", "", "", schedEvery60, true, 100, 2⟩

/-- Concrete entry with a nonzero run count, used for round-trip checks. -/
def entryY : RedBeatSchedulerEntry :=
  ⟨"y", "t", "", "", "", schedEvery60, true, 100, 5⟩

/-- Concrete disabled entry. -/
def entryDisabled : RedBeatSchedulerEntry :=
  ⟨"d", "t", "", "", "", schedEvery60, false, 100, 0⟩

/-- Store holding one due-set member with a negative score. -/
def storeNeg : Store := ⟨[], [], [("redbeat:n", -1)], [], none⟩

/-- Store holding one persisted meta field. -/
def storeMeta : Store := ⟨[], [("redbeat:m", ⟨42, some 7⟩)], [], [], none⟩

/-- C1 (code_bug): evaluated on entry x (interval 60, last_run_at 100) saved
into an empty store (due-set score 160), save and reschedule do keep the
due-set score equal to to_timestamp(due_at) of the current entry, but
next(200) raises NameError (the module-level name REDBEAT_SCHEDULE_KEY is
undefined) after writing meta, so the due-set score stays 160 while the
score of the advanced entry is 260. -/
theorem C1_next_leaves_stale_score :
    lookupAssoc (entryX.save Store.empty).zset entryX.key = some 160 ∧
    entryX.score = 160 ∧
    ((entryX.reschedule 200 none (entryX.save Store.empty)).1.score = 260 ∧
      lookupAssoc (entryX.reschedule 200 none (entryX.save Store.empty)).2.zset
        entryX.key = some 260) ∧
    ((entryX.next 200 none (entryX.save Store.empty)).err =
        some "NameError: global name REDBEAT_SCHEDULE_KEY is not defined" ∧
      (entryX.next 200 none (entryX.save Store.empty)).entry.score = 260 ∧
      RedBeatSchedulerEntry.load_meta
        (entryX.next 200 none (entryX.save Store.empty)).store entryX.key
        = ⟨200, some 3⟩ ∧
      lookupAssoc (entryX.next 200 none (entryX.save Store.empty)).store.zset
        entryX.key = some 160) :=
  ⟨rfl, rfl, ⟨rfl, rfl⟩, rfl, rfl, rfl, rfl⟩

/-- C2 counterexample: for entry y with total_run_count 5 saved into an empty
store, from_key does not reproduce the entry (save never writes the meta
field, so the loaded total_run_count is 0 and last_run_at is datetime.min). -/
theorem C2_roundtrip_counterexample :
    RedBeatSchedulerEntry.from_key (entryY.save Store.empty) entryY.key ≠ some entryY := by
  intro h
  have h0 : (RedBeatSchedulerEntry.from_key (entryY.save Store.empty) entryY.key).map
      RedBeatSchedulerEntry.total_run_count = some 0 := rfl
  rw [h] at h0
  simp [entryY] at h0

/-- C2 amended: save followed by from_key reproduces the seven definition
fields of the saved entry exactly, while last_run_at and total_run_count come
from the meta field already in the store (datetime.min and 0 when absent),
not from the in-memory entry. -/
theorem C2_amended_roundtrip (e : RedBeatSchedulerEntry) (s : Store) :
    RedBeatSchedulerEntry.from_key (e.save s) e.key =
      some { name := e.name, task := e.task, args := e.args, kwargs := e.kwargs,
             options := e.options, schedule := e.schedule, enabled := e.enabled,
             last_run_at := (RedBeatSchedulerEntry.load_meta s e.key).last_run_at,
             total_run_count :=
               ((RedBeatSchedulerEntry.load_meta s e.key).total_run_count).getD 0 } := by
  simp [RedBeatSchedulerEntry.from_key, RedBeatSchedulerEntry.load_definition,
        RedBeatSchedulerEntry.load_meta, RedBeatSchedulerEntry.save,
        RedBeatSchedulerEntry.definition, lookupAssoc_setAssoc]

/-- C3 amended: the due-candidate query of a tick returns exactly the members
of the due-set whose score sc satisfies 0 ≤ sc and
sc ≤ to_timestamp(now + max_interval): the query lower bound is 0, so
members with negative scores are never returned. -/
theorem C3_amended_range (s : Store) (now max_interval : Int) (k : String) :
    k ∈ due_tasks s now max_interval ↔
      ∃ sc : Int, (k, sc) ∈ s.zset ∧ 0 ≤ sc ∧
        sc ≤ to_timestamp (now + max_interval) := by
  simp only [due_tasks, zrangebyscore, List.mem_map, List.mem_filter,
    decide_eq_true_eq]
  constructor
  · rintro ⟨⟨k1, sc⟩, ⟨hmem, hlo, hhi⟩, hk⟩
    have hk2 : k1 = k := hk
    subst hk2
    exact ⟨sc, hmem, hlo, hhi⟩
  · rintro ⟨sc, hmem, hlo, hhi⟩
    exact ⟨(k, sc), ⟨hmem, hlo, hhi⟩, rfl⟩

/-- C3 counterexample: member redbeat:n carries score -1, which is at most
to_timestamp(now + max_interval) = 100, yet the tick query does not return
it, because the range queried starts at 0. -/
theorem C3_negative_score_counterexample :
    ("redbeat:n", (-1 : Int)) ∈ storeNeg.zset ∧
    (-1 : Int) ≤ to_timestamp (0 + 100) ∧
    "redbeat:n" ∉ due_tasks storeNeg 0 100 := by
  decide

/-- C6: reschedule persists a meta record holding only last_run_at, leaves
the in-memory total_run_count unchanged, and a subsequent from_key on the
same key yields an entry whose total_run_count is the default 0 and whose
last_run_at is the rescheduled instant. -/
theorem C6_reschedule_drops_persisted_count (e : RedBeatSchedulerEntry)
    (s : Store) (now : Int) (d : Definition)
    (hd : lookupAssoc s.defs e.key = some d) :
    lookupAssoc (e.reschedule now none s).2.metas e.key = some ⟨now, none⟩ ∧
    (e.reschedule now none s).1.total_run_count = e.total_run_count ∧
    RedBeatSchedulerEntry.from_key (e.reschedule now none s).2 e.key =
      some { name := d.name, task := d.task, args := d.args, kwargs := d.kwargs,
             options := d.options, schedule := d.schedule, enabled := d.enabled,
             last_run_at := now, total_run_count := 0 } := by
  refine ⟨?_, rfl, ?_⟩
  · simp [RedBeatSchedulerEntry.reschedule, RedBeatSchedulerEntry.key,
      lookupAssoc_setAssoc]
  · have hd2 : lookupAssoc s.defs (REDBEAT_KEY_NS ++ e.name) = some d := hd
    simp [RedBeatSchedulerEntry.from_key, RedBeatSchedulerEntry.load_definition,
      RedBeatSchedulerEntry.load_meta, RedBeatSchedulerEntry.reschedule, hd2,
      RedBeatSchedulerEntry.key, lookupAssoc_setAssoc]

/-- C6 witness: the theorem applied to entry y saved into an empty store and
rescheduled at instant 200. -/
theorem C6_witness :
    lookupAssoc ((entryY.reschedule 200 none (entryY.save Store.empty)).2).metas
      entryY.key = some ⟨200, none⟩ ∧
    (entryY.reschedule 200 none (entryY.save Store.empty)).1.total_run_count =
      entryY.total_run_count ∧
    RedBeatSchedulerEntry.from_key
        (entryY.reschedule 200 none (entryY.save Store.empty)).2 entryY.key =
      some { name := entryY.definition.name, task := entryY.definition.task,
             args := entryY.definition.args, kwargs := entryY.definition.kwargs,
             options := entryY.definition.options,
             schedule := entryY.definition.schedule,
             enabled := entryY.definition.enabled,
             last_run_at := 200, total_run_count := 0 } :=
  C6_reschedule_drops_persisted_count entryY (entryY.save Store.empty) 200
    entryY.definition (by simp [RedBeatSchedulerEntry.save,
      RedBeatSchedulerEntry.load_definition, lookupAssoc_setAssoc])

/-- C7: tick is exactly the external base tick applied to the store produced
by the lock phase, so any renewal happens before the due-entry processing of
the tick; when the lock is held the lock phase resets the ttl of the lock
key to the full configured timeout (in milliseconds), and when it is not
held the lock phase performs no store operation at all. -/
theorem C7_renewal_before_work (sch : RedBeatScheduler)
    (base : Store → Store × Rat) (s : Store) :
    sch.tick base s = base (sch.tick_lock_phase s) ∧
    (sch.lock = true →
      (sch.tick_lock_phase s).lock_pttl = some (sch.lock_timeout * 1000)) ∧
    (sch.lock = false → sch.tick_lock_phase s = s) := by
  refine ⟨rfl, ?_, ?_⟩ <;> intro h <;> simp [RedBeatScheduler.tick_lock_phase, h]

/-- C7 witness: a scheduler holding the lock with timeout 25 renews the lock
key ttl to 25000 milliseconds, and one not holding it leaves the store
unchanged. -/
theorem C7_witness :
    ((⟨true, 25⟩ : RedBeatScheduler).tick_lock_phase Store.empty).lock_pttl =
      some 25000 ∧
    (⟨false, 25⟩ : RedBeatScheduler).tick_lock_phase Store.empty = Store.empty :=
  ⟨(C7_renewal_before_work ⟨true, 25⟩ (fun st => (st, 0)) Store.empty).2.1 rfl,
   (C7_renewal_before_work ⟨false, 25⟩ (fun st => (st, 0)) Store.empty).2.2 rfl⟩

/-- C8: a disabled entry reports (false, 5.0) whatever its last_run_at and
schedule are, and an enabled entry delegates to the due-determination of its
recurrence rule. -/
theorem C8_disabled_is_due (e : RedBeatSchedulerEntry) :
    (e.enabled = false → ∀ (lra : Int) (sch : Schedule),
      ({ e with last_run_at := lra, schedule := sch } :
        RedBeatSchedulerEntry).is_due = (false, 5)) ∧
    (e.enabled = true → e.is_due = e.schedule.is_due e.last_run_at) := by
  constructor
  · intro h lra sch
    simp [RedBeatSchedulerEntry.is_due, h]
  · intro h
    simp [RedBeatSchedulerEntry.is_due, h]

/-- C8 witness: the theorem applied to the concrete disabled entry at an
arbitrary instant and rule, and to the concrete enabled entry y. -/
theorem C8_witness :
    ({ entryDisabled with last_run_at := 7, schedule := schedEvery60 } :
      RedBeatSchedulerEntry).is_due = (false, 5) ∧
    entryY.is_due = entryY.schedule.is_due entryY.last_run_at :=
  ⟨(C8_disabled_is_due entryDisabled).1 rfl 7 schedEvery60,
   (C8_disabled_is_due entryY).2 rfl⟩

/-- C9: load_meta is total: an absent (or empty) meta field yields
last_run_at = datetime.min and no stored run count, and a present one yields
exactly the decoded stored meta. -/
theorem C9_load_meta_total (s : Store) (key : String) :
    (lookupAssoc s.metas key = none →
      RedBeatSchedulerEntry.load_meta s key = ⟨datetime_min, none⟩) ∧
    (∀ m : Meta, lookupAssoc s.metas key = some m →
      RedBeatSchedulerEntry.load_meta s key = m) := by
  constructor
  · intro h
    simp [RedBeatSchedulerEntry.load_meta, h]
  · intro m h
    simp [RedBeatSchedulerEntry.load_meta, h]

/-- C9 witness: the theorem applied to the empty store and to a store holding
a meta record. -/
theorem C9_witness :
    RedBeatSchedulerEntry.load_meta Store.empty "k" = ⟨datetime_min, none⟩ ∧
    RedBeatSchedulerEntry.load_meta storeMeta "redbeat:m" = ⟨42, some 7⟩ :=
  ⟨(C9_load_meta_total Store.empty "k").1 rfl,
   (C9_load_meta_total storeMeta "redbeat:m").2 ⟨42, some 7⟩ rfl⟩

/-! Lemmas about the collection loop of the schedule property. -/

theorem collectDue_preserves_defs_metas (keys : List String) :
    ∀ (s : Store) (d : List (String × RedBeatSchedulerEntry)),
      (collectDue s keys d).1.defs = s.defs ∧
      (collectDue s keys d).1.metas = s.metas := by
  induction keys with
  | nil => intro s d; exact ⟨rfl, rfl⟩
  | cons k0 rest ih =>
    intro s d
    cases hfk0 : RedBeatSchedulerEntry.from_key s k0 with
    | none =>
      simp only [collectDue, hfk0]
      exact ih { s with zset := removeAssoc s.zset k0 } d
    | some e =>
      simp only [collectDue, hfk0]
      exact ih s (setAssoc d e.name e)

theorem collectDue_zset_stays_none (keys : List String) :
    ∀ (s : Store) (d : List (String × RedBeatSchedulerEntry)) (k : String),
      lookupAssoc s.zset k = none →
      lookupAssoc (collectDue s keys d).1.zset k = none := by
  induction keys with
  | nil => intro s d k h; exact h
  | cons k0 rest ih =>
    intro s d k h
    cases hfk0 : RedBeatSchedulerEntry.from_key s k0 with
    | none =>
      simp only [collectDue, hfk0]
      apply ih
      rw [lookupAssoc_removeAssoc]
      split <;> simp [h]
    | some e =>
      simp only [collectDue, hfk0]
      exact ih s _ k h

theorem collectDue_removes_dangling (keys : List String) :
    ∀ (s : Store) (d : List (String × RedBeatSchedulerEntry)) (k : String),
      k ∈ keys → RedBeatSchedulerEntry.from_key s k = none →
      lookupAssoc (collectDue s keys d).1.zset k = none := by
  induction keys with
  | nil => intro s d k hk _; cases hk
  | cons k0 rest ih =>
    intro s d k hk hfk
    cases hfk0 : RedBeatSchedulerEntry.from_key s k0 with
    | none =>
      simp only [collectDue, hfk0]
      by_cases he : k = k0
      · subst he
        apply collectDue_zset_stays_none
        rw [lookupAssoc_removeAssoc]
        simp
      · have hk2 : k ∈ rest := by
          rcases List.mem_cons.mp hk with h1 | h1
          · exact absurd h1 he
          · exact h1
        exact ih _ d k hk2 hfk
    | some e =>
      simp only [collectDue, hfk0]
      by_cases he : k = k0
      · subst he
        rw [hfk] at hfk0
        cases hfk0
      · have hk2 : k ∈ rest := by
          rcases List.mem_cons.mp hk with h1 | h1
          · exact absurd h1 he
          · exact h1
        exact ih s _ k hk2 hfk

theorem collectDue_collects (keys : List String) :
    ∀ (s : Store) (d : List (String × RedBeatSchedulerEntry))
      (e : RedBeatSchedulerEntry),
      (∀ k2 ∈ keys, ∀ e2, RedBeatSchedulerEntry.from_key s k2 = some e2 →
        e2.name = e.name → e2 = e) →
      ((∃ k ∈ keys, RedBeatSchedulerEntry.from_key s k = some e) ∨
        lookupAssoc d e.name = some e) →
      lookupAssoc (collectDue s keys d).2 e.name = some e := by
  induction keys with
  | nil =>
    intro s d e _ hin
    rcases hin with ⟨k, hk, _⟩ | hd
    · cases hk
    · exact hd
  | cons k0 rest ih =>
    intro s d e huniq hin
    cases hfk0 : RedBeatSchedulerEntry.from_key s k0 with
    | none =>
      simp only [collectDue, hfk0]
      apply ih _ d e
      · intro k2 hk2 e2 hf2 hn
        exact huniq k2 (List.mem_cons_of_mem _ hk2) e2 hf2 hn
      · rcases hin with ⟨k, hk, hf⟩ | hd
        · rcases List.mem_cons.mp hk with rfl | hk2
          · rw [hf] at hfk0
            cases hfk0
          · exact Or.inl ⟨k, hk2, hf⟩
        · exact Or.inr hd
    | some e0 =>
      simp only [collectDue, hfk0]
      apply ih s (setAssoc d e0.name e0) e
      · intro k2 hk2 e2 hf2 hn
        exact huniq k2 (List.mem_cons_of_mem _ hk2) e2 hf2 hn
      · by_cases hname : e0.name = e.name
        · have he0 : e0 = e := huniq k0 (List.mem_cons_self _ _) e0 hfk0 hname
          subst he0
          refine Or.inr ?_
          rw [lookupAssoc_setAssoc]
          simp [hname]
        · rcases hin with ⟨k, hk, hf⟩ | hd
          · rcases List.mem_cons.mp hk with rfl | hk2
            · rw [hf] at hfk0
              injection hfk0 with he
              exact absurd (congrArg RedBeatSchedulerEntry.name he).symm hname
            · exact Or.inl ⟨k, hk2, hf⟩
          · refine Or.inr ?_
            rw [lookupAssoc_setAssoc, if_neg hname]
            exact hd

/-- C5: during the due-candidate collection of one tick, every due key whose
definition field is missing is removed from the due-set (and the loop
continues past it rather than raising), and every due key whose definition
is present is loaded into the candidate dict under its entry name (assuming
the loaded entries carry pairwise distinct names, as the design expects). -/
theorem C5_dangling_index_self_heal (s : Store) (now max_interval : Int)
    (huniq : ∀ k1 ∈ due_tasks s now max_interval,
      ∀ k2 ∈ due_tasks s now max_interval, ∀ e1 e2,
      RedBeatSchedulerEntry.from_key s k1 = some e1 →
      RedBeatSchedulerEntry.from_key s k2 = some e2 →
      e1.name = e2.name → e1 = e2) :
    (∀ k ∈ due_tasks s now max_interval,
      RedBeatSchedulerEntry.from_key s k = none →
      lookupAssoc (RedBeatScheduler.schedule s now max_interval).1.zset k = none) ∧
    (∀ k ∈ due_tasks s now max_interval, ∀ e,
      RedBeatSchedulerEntry.from_key s k = some e →
      lookupAssoc (RedBeatScheduler.schedule s now max_interval).2 e.name = some e) := by
  constructor
  · intro k hk hfk
    exact collectDue_removes_dangling _ s [] k hk hfk
  · intro k hk e hfk
    apply collectDue_collects _ s [] e
    · intro k2 hk2 e2 hf2 hn
      exact huniq k2 hk2 k hk e2 e hf2 hfk hn
    · exact Or.inl ⟨k, hk, hfk⟩

/-- Concrete entry whose definition is persisted in the self-heal fixture. -/
def entryG : RedBeatSchedulerEntry :=
  ⟨"g", "t", "", "", "", schedEvery60, true, 0, 0⟩

/-- The hydrated form of entry g when loaded from the fixture (no meta field
is stored, so last_run_at is datetime.min and total_run_count is 0). -/
def entryGLoaded : RedBeatSchedulerEntry :=
  ⟨"g", "t", "", "", "", schedEvery60, true, datetime_min, 0⟩

/-- Fixture for the self-heal witness: the due-set holds a live key (whose
definition is stored) and a dangling key whose definition was deleted
out-of-band. -/
def storeC5 : Store :=
  ⟨[("redbeat:g", entryG.definition)], [],
   [("redbeat:g", 50), ("redbeat:gone", 10)], [], none⟩

/-- C5 witness: on the fixture, one schedule pass removes the dangling key
from the due-set and loads the live entry under its name. -/
theorem C5_witness :
    lookupAssoc (RedBeatScheduler.schedule storeC5 100 10).1.zset
      "redbeat:gone" = none ∧
    lookupAssoc (RedBeatScheduler.schedule storeC5 100 10).2 "g" =
      some entryGLoaded := by
  have hdl : due_tasks storeC5 100 10 = ["redbeat:g", "redbeat:gone"] := rfl
  have hgood : RedBeatSchedulerEntry.from_key storeC5 "redbeat:g" =
      some entryGLoaded := rfl
  have huniq : ∀ k1 ∈ due_tasks storeC5 100 10,
      ∀ k2 ∈ due_tasks storeC5 100 10, ∀ e1 e2,
      RedBeatSchedulerEntry.from_key storeC5 k1 = some e1 →
      RedBeatSchedulerEntry.from_key storeC5 k2 = some e2 →
      e1.name = e2.name → e1 = e2 := by
    intro k1 hk1 k2 hk2 e1 e2 hf1 hf2 _
    rw [hdl] at hk1 hk2
    have h1 : e1 = entryGLoaded := by
      rcases List.mem_cons.mp hk1 with rfl | h
      · rw [hgood] at hf1
        injection hf1 with h
        exact h.symm
      · simp only [List.mem_singleton] at h
        subst h
        cases hf1
    have h2 : e2 = entryGLoaded := by
      rcases List.mem_cons.mp hk2 with rfl | h
      · rw [hgood] at hf2
        injection hf2 with h
        exact h.symm
      · simp only [List.mem_singleton] at h
        subst h
        cases hf2
    rw [h1, h2]
  have h := C5_dangling_index_self_heal storeC5 100 10 huniq
  exact ⟨h.1 "redbeat:gone" (by rw [hdl]; simp) rfl,
         h.2 "redbeat:g" (by rw [hdl]; simp) entryGLoaded hgood⟩

/-! Lemmas about the reconciliation folds of setup_schedule. -/

theorem foldDelete_statics (l : List String) :
    ∀ s : Store, (l.foldl (fun st n => deleteByName n st) s).statics = s.statics := by
  induction l with
  | nil => intro s; rfl
  | cons n t ih => intro s; exact ih (deleteByName n s)

theorem foldDelete_defs_stays_none (l : List String) :
    ∀ (s : Store) (k : String), lookupAssoc s.defs k = none →
      lookupAssoc (l.foldl (fun st n => deleteByName n st) s).defs k = none := by
  induction l with
  | nil => intro s k h; exact h
  | cons n t ih =>
    intro s k h
    apply ih
    have h2 : lookupAssoc (removeAssoc s.defs (REDBEAT_KEY_NS ++ n)) k = none := by
      rw [lookupAssoc_removeAssoc]
      split <;> simp [h]
    exact h2

theorem foldDelete_defs_removed (l : List String) :
    ∀ (s : Store) (n : String), n ∈ l →
      lookupAssoc (l.foldl (fun st m => deleteByName m st) s).defs
        (REDBEAT_KEY_NS ++ n) = none := by
  induction l with
  | nil => intro s n h; cases h
  | cons m t ih =>
    intro s n hn
    by_cases he : n = m
    · subst he
      rw [List.foldl_cons]
      apply foldDelete_defs_stays_none
      have h2 : lookupAssoc (removeAssoc s.defs (REDBEAT_KEY_NS ++ n))
          (REDBEAT_KEY_NS ++ n) = none := by
        rw [lookupAssoc_removeAssoc]
        simp
      exact h2
    · have hn2 : n ∈ t := by
        rcases List.mem_cons.mp hn with h1 | h1
        · exact absurd h1 he
        · exact h1
      exact ih (deleteByName m s) n hn2

theorem foldSave_statics_metas (conf : List RedBeatSchedulerEntry) :
    ∀ s : Store,
      (conf.foldl (fun st e => e.save st) s).statics = s.statics ∧
      (conf.foldl (fun st e => e.save st) s).metas = s.metas := by
  induction conf with
  | nil => intro s; exact ⟨rfl, rfl⟩
  | cons e t ih => intro s; exact ih (e.save s)

theorem foldSave_defs_other_key (conf : List RedBeatSchedulerEntry) :
    ∀ (s : Store) (k : String), (∀ e ∈ conf, e.key ≠ k) →
      lookupAssoc (conf.foldl (fun st e => e.save st) s).defs k =
        lookupAssoc s.defs k := by
  induction conf with
  | nil => intro s k _; rfl
  | cons e t ih =>
    intro s k hk
    have h1 : lookupAssoc (t.foldl (fun st e => e.save st) (e.save s)).defs k =
        lookupAssoc (e.save s).defs k :=
      ih (e.save s) k (fun e2 he2 => hk e2 (List.mem_cons_of_mem _ he2))
    have h2 : lookupAssoc (setAssoc s.defs e.key e.definition) k =
        lookupAssoc s.defs k := by
      rw [lookupAssoc_setAssoc, if_neg (hk e (List.mem_cons_self _ _))]
    exact h1.trans h2

theorem setup_schedule_statics_grow (s : Store)
    (conf : List RedBeatSchedulerEntry) (n : String) (hn : n ∈ s.statics) :
    n ∈ (RedBeatScheduler.setup_schedule s conf).statics := by
  simp only [RedBeatScheduler.setup_schedule]
  split
  · rw [foldDelete_statics]
    exact hn
  · have h1 : n ∈ saddList
        ((conf.foldl (fun st e => e.save st)
          ((removedNames s conf).foldl (fun st m => deleteByName m st) s)).statics)
        (conf.map RedBeatSchedulerEntry.name) := by
      rw [mem_saddList, (foldSave_statics_metas conf _).1, foldDelete_statics]
      exact Or.inl hn
    exact h1

theorem setup_schedule_removed_key_absent (s2 : Store)
    (conf : List RedBeatSchedulerEntry) (n : String)
    (hrem : n ∈ removedNames s2 conf)
    (hcur : ∀ e ∈ conf, e.name ≠ n) :
    lookupAssoc (RedBeatScheduler.setup_schedule s2 conf).defs
      (REDBEAT_KEY_NS ++ n) = none := by
  have hother : ∀ e ∈ conf, e.key ≠ REDBEAT_KEY_NS ++ n := by
    intro e he hkey
    exact hcur e he (string_append_cancel hkey)
  have hbase := foldDelete_defs_removed (removedNames s2 conf) s2 n hrem
  simp only [RedBeatScheduler.setup_schedule]
  split
  · exact hbase
  · exact (foldSave_defs_other_key conf _ _ hother).trans hbase

/-- C10: setup_schedule only ever adds names to the statics set, so a name
already tracked stays tracked even when its entry is deleted as stale; when
such a name is absent from the current static configuration, the next
reconciliation recomputes it as removed and re-issues its deletion (after a
second run its definition key is still absent from the store). -/
theorem C10_statics_never_shrink (s : Store)
    (conf : List RedBeatSchedulerEntry) (n : String) (hn : n ∈ s.statics) :
    n ∈ (RedBeatScheduler.setup_schedule s conf).statics ∧
    (n ∉ conf.map RedBeatSchedulerEntry.name →
      n ∈ removedNames (RedBeatScheduler.setup_schedule s conf) conf ∧
      lookupAssoc (RedBeatScheduler.setup_schedule
          (RedBeatScheduler.setup_schedule s conf) conf).defs
        (REDBEAT_KEY_NS ++ n) = none) := by
  have hstat := setup_schedule_statics_grow s conf n hn
  refine ⟨hstat, fun hcur => ?_⟩
  have hrem : n ∈ removedNames (RedBeatScheduler.setup_schedule s conf) conf := by
    simp only [removedNames, List.mem_filter, decide_eq_true_eq]
    exact ⟨hstat, hcur⟩
  refine ⟨hrem, ?_⟩
  apply setup_schedule_removed_key_absent _ conf n hrem
  intro e he hne
  exact hcur (hne ▸ List.mem_map_of_mem RedBeatSchedulerEntry.name he)

/-- Fixture: a store tracking the static name a with no entries persisted. -/
def storeStaticA : Store := ⟨[], [], [], ["a"], none⟩

/-- Concrete static entry named b. -/
def entryB : RedBeatSchedulerEntry :=
  ⟨"b", "t", "", "", "", schedEvery60, true, 0, 0⟩

/-- C10 witness: with tracked statics {a} and configuration {b}, name a
stays tracked after reconciliation, is recomputed as removed, and its key
stays absent after a second reconciliation. -/
theorem C10_witness :
    "a" ∈ (RedBeatScheduler.setup_schedule storeStaticA [entryB]).statics ∧
    "a" ∈ removedNames (RedBeatScheduler.setup_schedule storeStaticA [entryB])
      [entryB] ∧
    lookupAssoc (RedBeatScheduler.setup_schedule
        (RedBeatScheduler.setup_schedule storeStaticA [entryB]) [entryB]).defs
      (REDBEAT_KEY_NS ++ "a") = none := by
  have h := C10_statics_never_shrink storeStaticA [entryB] "a" (by decide)
  have h2 := h.2 (by decide)
  exact ⟨h.1, h2.1, h2.2⟩

/-- C4: reconciling a store whose tracked static names are {a, b} against a
static configuration holding entries named b and c deletes entry a entirely
(definition, meta and due-set member), leaves the persisted meta of b (its
run count and last_run_at) untouched, and installs and saves c (definition
stored and due-set member upserted with its score). -/
theorem C4_stale_static_removal (s : Store) (a b c : String)
    (eB eC : RedBeatSchedulerEntry) (hab : a ≠ b) (hac : a ≠ c)
    (hst : s.statics = [a, b]) (hB : eB.name = b) (hC : eC.name = c) :
    lookupAssoc (RedBeatScheduler.setup_schedule s [eB, eC]).defs
      (REDBEAT_KEY_NS ++ a) = none ∧
    lookupAssoc (RedBeatScheduler.setup_schedule s [eB, eC]).metas
      (REDBEAT_KEY_NS ++ a) = none ∧
    lookupAssoc (RedBeatScheduler.setup_schedule s [eB, eC]).zset
      (REDBEAT_KEY_NS ++ a) = none ∧
    lookupAssoc (RedBeatScheduler.setup_schedule s [eB, eC]).metas
      (REDBEAT_KEY_NS ++ b) = lookupAssoc s.metas (REDBEAT_KEY_NS ++ b) ∧
    lookupAssoc (RedBeatScheduler.setup_schedule s [eB, eC]).defs
      (REDBEAT_KEY_NS ++ c) = some eC.definition ∧
    lookupAssoc (RedBeatScheduler.setup_schedule s [eB, eC]).zset
      (REDBEAT_KEY_NS ++ c) = some eC.score := by
  have hrem : removedNames s [eB, eC] = [a] := by
    simp only [removedNames, hst, List.map_cons, List.map_nil, hB, hC]
    simp [List.filter_cons, hab, hac]
  have hkeyB : eB.key = REDBEAT_KEY_NS ++ b := by
    rw [RedBeatSchedulerEntry.key, hB]
  have hkeyC : eC.key = REDBEAT_KEY_NS ++ c := by
    rw [RedBeatSchedulerEntry.key, hC]
  have hkBA : ¬(eB.key = REDBEAT_KEY_NS ++ a) := by
    rw [hkeyB]
    exact fun h => hab (string_append_cancel h).symm
  have hkCA : ¬(eC.key = REDBEAT_KEY_NS ++ a) := by
    rw [hkeyC]
    exact fun h => hac (string_append_cancel h).symm
  have hkAB : ¬(REDBEAT_KEY_NS ++ a = REDBEAT_KEY_NS ++ b) :=
    fun h => hab (string_append_cancel h)
  have hdefs : (RedBeatScheduler.setup_schedule s [eB, eC]).defs =
      setAssoc (setAssoc (removeAssoc s.defs (REDBEAT_KEY_NS ++ a))
        eB.key eB.definition) eC.key eC.definition := by
    rw [RedBeatScheduler.setup_schedule, hrem]
    rfl
  have hmetas : (RedBeatScheduler.setup_schedule s [eB, eC]).metas =
      removeAssoc s.metas (REDBEAT_KEY_NS ++ a) := by
    rw [RedBeatScheduler.setup_schedule, hrem]
    rfl
  have hzset : (RedBeatScheduler.setup_schedule s [eB, eC]).zset =
      setAssoc (setAssoc (removeAssoc s.zset (REDBEAT_KEY_NS ++ a))
        eB.key eB.score) eC.key eC.score := by
    rw [RedBeatScheduler.setup_schedule, hrem]
    rfl
  refine ⟨?_, ?_, ?_, ?_, ?_, ?_⟩
  · rw [hdefs, lookupAssoc_setAssoc, if_neg hkCA, lookupAssoc_setAssoc,
      if_neg hkBA, lookupAssoc_removeAssoc, if_pos rfl]
  · rw [hmetas, lookupAssoc_removeAssoc, if_pos rfl]
  · rw [hzset, lookupAssoc_setAssoc, if_neg hkCA, lookupAssoc_setAssoc,
      if_neg hkBA, lookupAssoc_removeAssoc, if_pos rfl]
  · rw [hmetas, lookupAssoc_removeAssoc, if_neg hkAB]
  · rw [hdefs, lookupAssoc_setAssoc, if_pos hkeyC]
  · rw [hzset, lookupAssoc_setAssoc, if_pos hkeyC]

/-- Concrete static entry named c. -/
def entryC : RedBeatSchedulerEntry :=
  ⟨"c", "t", "", "", "", schedEvery60, true, 0, 0⟩

/-- Fixture: statics {a, b} tracked, with a persisted meta for b recording
four runs at instant 33. -/
def storeAB : Store :=
  ⟨[], [(REDBEAT_KEY_NS ++ "b", ⟨33, some 4⟩)], [], ["a", "b"], none⟩

/-- C4 witness: the theorem applied to the fixture with names a, b, c and
entries b and c. -/
theorem C4_witness :
    lookupAssoc (RedBeatScheduler.setup_schedule storeAB [entryB, entryC]).defs
      (REDBEAT_KEY_NS ++ "a") = none ∧
    lookupAssoc (RedBeatScheduler.setup_schedule storeAB [entryB, entryC]).metas
      (REDBEAT_KEY_NS ++ "a") = none ∧
    lookupAssoc (RedBeatScheduler.setup_schedule storeAB [entryB, entryC]).zset
      (REDBEAT_KEY_NS ++ "a") = none ∧
    lookupAssoc (RedBeatScheduler.setup_schedule storeAB [entryB, entryC]).metas
      (REDBEAT_KEY_NS ++ "b") = lookupAssoc storeAB.metas (REDBEAT_KEY_NS ++ "b") ∧
    lookupAssoc (RedBeatScheduler.setup_schedule storeAB [entryB, entryC]).defs
      (REDBEAT_KEY_NS ++ "c") = some entryC.definition ∧
    lookupAssoc (RedBeatScheduler.setup_schedule storeAB [entryB, entryC]).zset
      (REDBEAT_KEY_NS ++ "c") = some entryC.score :=
  C4_stale_static_removal storeAB "a" "b" "c" entryB entryC
    (by decide) (by decide) rfl rfl rfl
